import Mathlib

/-!
Verification of the idb library: a thin convenience layer over IndexedDB
offering JSON-document read/write/delete, predicate-based bulk read/delete,
and a change-log-backed polling notifier.

The development is a shallow embedding of the library's source file
(writeJson, readJson, deleteKey, readMultipleRecords, deleteMultipleRecords,
onNewRecord, onNewRecordWithLog) together with the parts of the host
IndexedDB engine the library relies on: named databases with versioned
object stores, an auto-incrementing changeLog store, readwrite transactions
that commit or abort atomically, and forward cursors iterating in ascending
key order.

Host-engine modelling choices, stated once here:
- A record store is an association list kept in ascending key order, which
  is the order an IndexedDB cursor visits records; keys are strings.
- Transaction outcomes that depend on the environment (commit vs abort) are
  supplied as an explicit TxResult oracle argument.
- Opening a database with an explicit version (the openDb helper of the
  source, used by writeJson, readJson and deleteKey) runs the upgrade hook
  exactly when the database does not exist yet; opening without a version
  (the scanners and the notifiers) never runs an upgrade hook.
- A promise that never settles is represented by the outcome value none in
  ScanResult; a settled promise is some (ok or error).
- Each operation records in a closed flag whether the control path it took
  reaches the db.close() call of the source.
- The caller-supplied scan predicate may fail; it is modelled as returning
  an Except value, error meaning the JavaScript function threw.
-/

namespace Idb

/-- JSON-compatible values, mirroring the source type JsonValue:
null, boolean, number, string, array, or string-keyed object. -/
inductive JsonValue where
  | null
  | bool (b : Bool)
  | num (n : Int)
  | str (s : String)
  | arr (elems : List JsonValue)
  | obj (fields : List (String × JsonValue))

/-- Keys of record stores. The source accepts any IDBValidKey; the embedding
restricts to strings, which are totally ordered as IndexedDB requires. -/
abbrev Key := String

/-- One entry of the changeLog store. The store has keyPath id with
autoIncrement, so the stored record is the added object with the generated
id injected; cursor.primaryKey equals that id. -/
structure ChangeLogEntry where
  id : Nat
  store : String
  key : Key
  value : JsonValue

/-- A record store: association list in ascending key order, the order a
forward cursor visits records. -/
abbrev RecordStore := List (Key × JsonValue)

/-- State of one named IndexedDB database. version = 0 means the database
does not exist yet. The caller-named record stores live in stores; the
changeLog store (keyPath id, autoIncrement) is tracked by hasChangeLog,
its contents and its auto-increment counter by changeLog and nextId. -/
structure Database where
  version : Nat
  stores : List (String × RecordStore)
  hasChangeLog : Bool
  changeLog : List ChangeLogEntry
  nextId : Nat

/-- Lookup of a named record store, as objectStore(name) resolves it. -/
def findStore : List (String × RecordStore) → String → Option RecordStore
  | [], _ => none
  | (n, r) :: rest, s => if n = s then some r else findStore rest s

/-- Replace the contents of the named record store, leaving others alone. -/
def updateStore (s : String) (recs : RecordStore) :
    List (String × RecordStore) → List (String × RecordStore)
  | [] => []
  | (n, r) :: rest =>
    if n = s then (n, recs) :: rest else (n, r) :: updateStore s recs rest

/-- objectStoreNames.contains of the source upgrade hook: a name is present
if it names a record store or it is the changeLog store and that exists. -/
def containsName (db : Database) (n : String) : Bool :=
  (findStore db.stores n).isSome || (n == "changeLog" && db.hasChangeLog)

/-- The onupgradeneeded hook of openDb in the source: create the named
store if missing, then create the changeLog store if missing. -/
def runUpgrade (db : Database) (storeName : String) : Database :=
  let db1 :=
    if containsName db storeName then db
    else { db with stores := db.stores ++ [(storeName, [])] }
  if containsName db1 "changeLog" then db1
  else { db1 with hasChangeLog := true }

/-- openDb of the source: indexedDB.open(dbName, 1). The upgrade hook runs
exactly when the database is newly created (version 0 before the call). -/
def openDb (db : Database) (storeName : String) : Database :=
  if db.version < 1 then { runUpgrade db storeName with version := 1 } else db

/-- indexedDB.open(dbName) with no version, as used by the scanners and the
notifiers: creates the database (at version 1, with no stores) if absent,
never runs an upgrade hook. -/
def openPlain (db : Database) : Database :=
  if db.version < 1 then { db with version := 1 } else db

/-- objectStore.put(value, key): insert or overwrite, keeping ascending key
order so that cursor iteration order is preserved. -/
def putKV (k : Key) (v : JsonValue) : RecordStore → RecordStore
  | [] => [(k, v)]
  | (k1, v1) :: rest =>
    if k < k1 then (k, v) :: (k1, v1) :: rest
    else if k = k1 then (k, v) :: rest
    else (k1, v1) :: putKV k v rest

/-- objectStore.get(key): the value stored at the key, if any. -/
def getKV (k : Key) : RecordStore → Option JsonValue
  | [] => none
  | (k1, v) :: rest => if k1 = k then some v else getKV k rest

/-- objectStore.delete(key): remove the record at the key. -/
def eraseKey (k : Key) : RecordStore → RecordStore
  | [] => []
  | (k1, v) :: rest =>
    if k1 = k then eraseKey k rest else (k1, v) :: eraseKey k rest

/-- changeLog.add(record): append an entry carrying the auto-assigned id
nextId and bump the counter. -/
def addLogEntry (db : Database) (s : String) (k : Key) (v : JsonValue) :
    Database :=
  { db with
    changeLog := db.changeLog ++ [⟨db.nextId, s, k, v⟩],
    nextId := db.nextId + 1 }

/-- Outcome oracle for a transaction: the host either commits it or aborts
it (constraint violation, host resource failure, explicit abort). -/
inductive TxResult where
  | commit
  | abort

/-- Errors surfaced to the immediate caller of the single-record
operations. -/
inductive IdbError where
  | openFailed
  | storeNotFound (name : String)
  | txAborted

/-- Result of one single-record operation: the database state afterwards,
the settled promise value, and whether the path taken runs db.close(). -/
structure OpResult (α : Type) where
  db : Database
  result : Except IdbError α
  closed : Bool

/-- Result of one bulk scan: the database state afterwards, the promise
outcome (none meaning the promise never settles), and whether the path
taken runs db.close() (the source scanners have no such call). -/
structure ScanResult (α : Type) where
  db : Database
  outcome : Option (Except String α)
  closed : Bool

/-- writeJson of the source: open with version 1 (upgrade on first
creation), one readwrite transaction over the named store and changeLog,
put the value then add a log entry, resolve when the transaction commits,
then close the handle. A missing store makes transaction() throw before
any close; an aborted transaction rejects before the close. Opening an
existing database whose stored version exceeds 1 fails (VersionError). -/
def writeJson (txr : TxResult) (db0 : Database) (storeName : String)
    (key : Key) (value : JsonValue) : OpResult Unit :=
  if db0.version ≤ 1 then
    let db := openDb db0 storeName
    if db.hasChangeLog then
      match findStore db.stores storeName, txr with
      | some recs, .commit =>
        ⟨addLogEntry
            { db with stores := updateStore storeName (putKV key value recs) db.stores }
            storeName key value,
          .ok (), true⟩
      | some _, .abort => ⟨db, .error .txAborted, false⟩
      | none, _ => ⟨db, .error (.storeNotFound storeName), false⟩
    else ⟨db, .error (.storeNotFound "changeLog"), false⟩
  else ⟨db0, .error .openFailed, false⟩

/-- readJson of the source: open with version 1, readonly transaction over
the named store, get(key), await transaction completion, close, return the
value (none when absent). -/
def readJson (txr : TxResult) (db0 : Database) (storeName : String)
    (key : Key) : OpResult (Option JsonValue) :=
  if db0.version ≤ 1 then
    let db := openDb db0 storeName
    match findStore db.stores storeName, txr with
    | some recs, .commit => ⟨db, .ok (getKV key recs), true⟩
    | some _, .abort => ⟨db, .error .txAborted, false⟩
    | none, _ => ⟨db, .error (.storeNotFound storeName), false⟩
  else ⟨db0, .error .openFailed, false⟩

/-- deleteKey of the source: open with version 1, one readwrite transaction
scoped to the named store only, delete(key), await completion, close. -/
def deleteKey (txr : TxResult) (db0 : Database) (storeName : String)
    (key : Key) : OpResult Unit :=
  if db0.version ≤ 1 then
    let db := openDb db0 storeName
    match findStore db.stores storeName, txr with
    | some recs, .commit =>
      ⟨{ db with stores := updateStore storeName (eraseKey key recs) db.stores },
        .ok (), true⟩
    | some _, .abort => ⟨db, .error .txAborted, false⟩
    | none, _ => ⟨db, .error (.storeNotFound storeName), false⟩
  else ⟨db0, .error .openFailed, false⟩

/-- Cursor scan of readMultipleRecords: visit each record in order, call
the predicate on its value, collect matches. An error result means the
predicate threw out of the cursor success handler, which aborts the
enclosing transaction; the scan produces no value in that case. -/
def scanFilter (pred : JsonValue → Except String Bool) :
    List (Key × JsonValue) → Except String (List JsonValue)
  | [] => .ok []
  | (_, v) :: rest =>
    match pred v with
    | .error e => .error e
    | .ok b =>
      match scanFilter pred rest with
      | .error e => .error e
      | .ok vs => .ok (if b then v :: vs else vs)

/-- Cursor scan of deleteMultipleRecords: visit each record in order,
delete it via the cursor when the predicate matches, keep it otherwise.
Returns the surviving records; an error result means the predicate threw,
aborting the transaction so that no deletion survives. -/
def scanDelete (pred : JsonValue → Except String Bool) :
    List (Key × JsonValue) → Except String (List (Key × JsonValue))
  | [] => .ok []
  | (k, v) :: rest =>
    match pred v with
    | .error e => .error e
    | .ok b =>
      match scanDelete pred rest with
      | .error e => .error e
      | .ok rs => .ok (if b then rs else (k, v) :: rs)

/-- readMultipleRecords of the source: open with no version and no upgrade
hook, readonly transaction over the named store, cursor scan collecting
values the predicate accepts, resolve at cursor exhaustion. When the store
does not exist, transaction() throws inside the open success handler where
no rejection path exists, so the promise never settles (outcome none).
When the predicate throws out of the cursor success handler, the
transaction is aborted; the source registers only transaction.onerror and
no onabort handler, so neither resolve nor reject runs and the promise
never settles either. The source never calls db.close() on any path of
this function. -/
def readMultipleRecords (db0 : Database) (storeName : String)
    (filterFn : JsonValue → Except String Bool) : ScanResult (List JsonValue) :=
  let db := openPlain db0
  match findStore db.stores storeName with
  | none => ⟨db, none, false⟩
  | some recs =>
    match scanFilter filterFn recs with
    | .ok vs => ⟨db, some (.ok vs), false⟩
    | .error _ => ⟨db, none, false⟩

/-- deleteMultipleRecords of the source: open with no version, readwrite
transaction over the named store, cursor scan deleting matching records,
resolve at cursor exhaustion. A predicate throw aborts the transaction, so
the deletions performed so far are rolled back; the abort fires an abort
event for which the source registers no handler (only transaction.onerror),
so neither resolve nor reject runs and the promise never settles. A missing
store makes the promise never settle as well, as for the read scan. The
source never calls db.close() on any path of this function. -/
def deleteMultipleRecords (db0 : Database) (storeName : String)
    (filterFn : JsonValue → Except String Bool) : ScanResult Unit :=
  let db := openPlain db0
  match findStore db.stores storeName with
  | none => ⟨db, none, false⟩
  | some recs =>
    match scanDelete filterFn recs with
    | .ok recs1 =>
      ⟨{ db with stores := updateStore storeName recs1 db.stores }, some (.ok ()), false⟩
    | .error _ => ⟨db, none, false⟩

/-- Cursor scan of one notifier poll over the changeLog store: for each
entry in cursor order, when its primary key (the id) is not in the seen
set, add it and invoke the callback. Returns the grown seen set and the
entries delivered to the callback, in delivery order. -/
def scanNotify (log : List ChangeLogEntry) (seen : List Nat) :
    List Nat × List ChangeLogEntry :=
  match log with
  | [] => (seen, [])
  | e :: rest =>
    if e.id ∈ seen then scanNotify rest seen
    else
      let r := scanNotify rest (e.id :: seen)
      (r.1, e :: r.2)

/-- Outcome oracle for one notifier poll: the open request fails, or the
changeLog transaction terminates with error instead of complete, or
everything succeeds. -/
inductive PollOutcome where
  | openFail
  | txFail
  | ok

/-- Result of one poll pass: database state, seen set, entries delivered,
whether the pass logged a failure to the console, whether it scheduled the
next poll, and whether it closed the handle it opened (the source polls
never close it). -/
structure PollResult where
  db : Database
  seen : List Nat
  delivered : List ChangeLogEntry
  logged : Bool
  reschedule : Bool
  closed : Bool

/-- One pass of the pollForChanges closure shared by onNewRecord (withLog
false) and onNewRecordWithLog (withLog true). On an open failure the base
variant has no error handler at all and the WithLog variant only logs; in
neither is the next poll scheduled. When the changeLog store is missing,
transaction() throws inside the success handler and the pass dies silently.
On success the cursor scan runs and setTimeout is reached only from the
transaction's oncomplete handler; a transaction error is logged by the
WithLog variant only and schedules nothing. -/
def pollPass (withLog : Bool) (outcome : PollOutcome) (db0 : Database)
    (seen : List Nat) : PollResult :=
  match outcome with
  | .openFail => ⟨db0, seen, [], withLog, false, false⟩
  | .txFail =>
    let db := openPlain db0
    if db.hasChangeLog then
      let r := scanNotify db.changeLog seen
      ⟨db, r.1, r.2, withLog, false, false⟩
    else ⟨db, seen, [], false, false, false⟩
  | .ok =>
    let db := openPlain db0
    if db.hasChangeLog then
      let r := scanNotify db.changeLog seen
      ⟨db, r.1, r.2, false, true, false⟩
    else ⟨db, seen, [], false, false, false⟩

/-- The polling loop: each pass sees the database state current at that
pass (concurrent writers may have changed it) and the loop continues only
while a pass reaches the setTimeout in its oncomplete handler. Returns the
per-pass delivered entry lists. -/
def pollRun (withLog : Bool) :
    List (PollOutcome × Database) → List Nat → List (List ChangeLogEntry)
  | [], _ => []
  | (o, d) :: rest, seen =>
    let r := pollPass withLog o d seen
    if r.reschedule then r.delivered :: pollRun withLog rest r.seen
    else [r.delivered]

/-- Number of delivered entries carrying a given id within one pass. -/
def countId (i : Nat) : List ChangeLogEntry → Nat
  | [] => 0
  | e :: rest => (if e.id = i then 1 else 0) + countId i rest

/-- Number of delivered entries carrying a given id across a whole run. -/
def deliveredCount (i : Nat) : List (List ChangeLogEntry) → Nat
  | [] => 0
  | d :: rest => countId i d + deliveredCount i rest

/-- Whether an Except value is a success, used to state which control
paths of the source reach db.close(). -/
def succeeded {ε α : Type} : Except ε α → Bool
  | .ok _ => true
  | .error _ => false

/-- Well-formedness of a database state as produced by the library: every
assigned changeLog id is below the auto-increment counter, and the log is
strictly ascending by id (the order an auto-increment key cursor yields). -/
def WF (db : Database) : Prop :=
  (∀ e ∈ db.changeLog, e.id < db.nextId) ∧
    db.changeLog.Pairwise (fun a b => a.id < b.id)

/-- A database that does not exist yet (version 0). -/
def emptyDb : Database := ⟨0, [], false, [], 1⟩

/-- A created database (version 1) holding no stores at all, as produced by
an open call with no version on a fresh name. -/
def bareDb : Database := ⟨1, [], false, [], 1⟩

/-- The record of the concrete scenario of the test suite. -/
def vAda : JsonValue := .obj [("name", .str "Ada"), ("age", .num 37)]

/-- A two-entry change log with ascending ids. -/
def sampleLog : List ChangeLogEntry :=
  [⟨1, "kv", "k1", .num 1⟩, ⟨2, "kv", "k2", .num 2⟩]

/-- A database whose changeLog holds sampleLog, for notifier scenarios. -/
def notifyDb : Database := ⟨1, [], true, sampleLog, 3⟩

/-- A database with three numbered records in one store, mirroring the
readMultipleRecords and deleteMultipleRecords tests. -/
def scanDb : Database :=
  ⟨1, [("teststore", [("key1", .num 1), ("key2", .num 2), ("key3", .num 3)])],
    true, [], 1⟩

/-- Predicate of the deleteMultipleRecords test: numeric value at most 2. -/
def predLe2 : JsonValue → Bool := fun v =>
  match v with
  | .num n => n ≤ 2
  | _ => false

/-- Predicate of the readMultipleRecords test: numeric value above 1. -/
def predGt1 : JsonValue → Bool := fun v =>
  match v with
  | .num n => 1 < n
  | _ => false

/-- A predicate that throws on the value 2 and accepts everything else. -/
def predBoom : JsonValue → Except String Bool := fun v =>
  match v with
  | .num n => if n = 2 then .error "boom" else .ok true
  | _ => .ok true

theorem findStore_updateStore_self {l : List (String × RecordStore)} {s : String}
    {r0 : RecordStore} (h : findStore l s = some r0) (r : RecordStore) :
    findStore (updateStore s r l) s = some r := by
  induction l with
  | nil => simp [findStore] at h
  | cons p rest ih =>
    obtain ⟨n, r1⟩ := p
    by_cases hn : n = s
    · subst hn
      simp [updateStore, findStore]
    · simp [findStore, hn] at h
      simpa [updateStore, findStore, hn] using ih h

theorem findStore_updateStore_other {l : List (String × RecordStore)} {s t : String}
    (r : RecordStore) (h : t ≠ s) :
    findStore (updateStore s r l) t = findStore l t := by
  induction l with
  | nil => simp [updateStore]
  | cons p rest ih =>
    obtain ⟨n, r1⟩ := p
    by_cases hn : n = s
    · subst hn
      have hnt : ¬n = t := fun hh => h hh.symm
      simp [updateStore, findStore, hnt]
    · simp [updateStore, findStore, hn]
      split <;> simp [ih]

theorem findStore_append (l1 l2 : List (String × RecordStore)) (s : String) :
    findStore (l1 ++ l2) s =
      match findStore l1 s with
      | some r => some r
      | none => findStore l2 s := by
  induction l1 with
  | nil => simp [findStore]
  | cons p rest ih =>
    obtain ⟨n, r⟩ := p
    by_cases hn : n = s <;> simp [findStore, hn, ih]

theorem getKV_putKV (k : Key) (v : JsonValue) (recs : RecordStore) :
    getKV k (putKV k v recs) = some v := by
  induction recs with
  | nil => simp [putKV, getKV]
  | cons p rest ih =>
    obtain ⟨k1, v1⟩ := p
    by_cases hlt : k < k1
    · simp [putKV, hlt, getKV]
    · by_cases heq : k = k1
      · simp [putKV, hlt, heq, getKV]
      · have hne : k1 ≠ k := fun hh => heq hh.symm
        simp [putKV, hlt, heq, getKV, hne, ih]

theorem getKV_eraseKey (k : Key) (recs : RecordStore) :
    getKV k (eraseKey k recs) = none := by
  induction recs with
  | nil => simp [eraseKey, getKV]
  | cons p rest ih =>
    obtain ⟨k1, v1⟩ := p
    by_cases heq : k1 = k
    · simp [eraseKey, heq, ih]
    · simp [eraseKey, heq, getKV, ih]

theorem runUpgrade_changeLog (db : Database) (s : String) :
    (runUpgrade db s).changeLog = db.changeLog := by
  simp only [runUpgrade]
  split <;> split <;> rfl

theorem runUpgrade_nextId (db : Database) (s : String) :
    (runUpgrade db s).nextId = db.nextId := by
  simp only [runUpgrade]
  split <;> split <;> rfl

theorem openDb_changeLog (db : Database) (s : String) :
    (openDb db s).changeLog = db.changeLog := by
  simp only [openDb]
  split
  · simp [runUpgrade_changeLog]
  · rfl

theorem openDb_nextId (db : Database) (s : String) :
    (openDb db s).nextId = db.nextId := by
  simp only [openDb]
  split
  · simp [runUpgrade_nextId]
  · rfl

theorem openDb_version (db : Database) (s : String) (h : db.version ≤ 1) :
    (openDb db s).version = 1 := by
  simp only [openDb]
  split
  · rfl
  · omega

theorem openDb_eq_self (db : Database) (s : String) (h : 1 ≤ db.version) :
    openDb db s = db := by
  simp only [openDb]
  split
  · omega
  · rfl

theorem openPlain_eq_self (db : Database) (h : 1 ≤ db.version) :
    openPlain db = db := by
  simp only [openPlain]
  split
  · omega
  · rfl

theorem openPlain_stores (db : Database) : (openPlain db).stores = db.stores := by
  simp only [openPlain]
  split <;> rfl

theorem openPlain_hasChangeLog (db : Database) :
    (openPlain db).hasChangeLog = db.hasChangeLog := by
  simp only [openPlain]
  split <;> rfl

theorem openPlain_changeLog (db : Database) :
    (openPlain db).changeLog = db.changeLog := by
  simp only [openPlain]
  split <;> rfl

theorem openPlain_version (db : Database) : 1 ≤ (openPlain db).version := by
  simp only [openPlain]
  split
  · simp
  · omega

theorem wf_openDb {db : Database} (s : String) (h : WF db) : WF (openDb db s) := by
  constructor
  · rw [openDb_changeLog, openDb_nextId]
    exact h.1
  · rw [openDb_changeLog]
    exact h.2

theorem scanFilter_pure (p : JsonValue → Bool) (recs : RecordStore) :
    scanFilter (fun v => .ok (p v)) recs = .ok ((recs.map Prod.snd).filter p) := by
  induction recs with
  | nil => simp [scanFilter]
  | cons kv rest ih =>
    obtain ⟨k, v⟩ := kv
    by_cases hp : p v <;> simp [scanFilter, ih, List.filter_cons, hp]

theorem scanDelete_pure (p : JsonValue → Bool) (recs : RecordStore) :
    scanDelete (fun v => .ok (p v)) recs = .ok (recs.filter (fun kv => !(p kv.2))) := by
  induction recs with
  | nil => simp [scanDelete]
  | cons kv rest ih =>
    obtain ⟨k, v⟩ := kv
    by_cases hp : p v <;> simp [scanDelete, ih, List.filter_cons, hp]

theorem map_snd_filter_snd (p : JsonValue → Bool) (recs : RecordStore) :
    (recs.filter (fun kv => p kv.2)).map Prod.snd = (recs.map Prod.snd).filter p := by
  induction recs with
  | nil => simp
  | cons kv rest ih =>
    obtain ⟨k, v⟩ := kv
    by_cases hp : p v <;> simp [List.filter_cons, hp, ih]

theorem scanFilter_first_error (pred : JsonValue → Except String Bool)
    (pre : RecordStore) (k : Key) (v : JsonValue) (post : RecordStore) (e : String)
    (hpre : ∀ kv ∈ pre, ∃ b, pred kv.2 = .ok b) (hv : pred v = .error e) :
    scanFilter pred (pre ++ (k, v) :: post) = .error e := by
  induction pre with
  | nil => simp [scanFilter, hv]
  | cons kv rest ih =>
    obtain ⟨k1, v1⟩ := kv
    obtain ⟨b, hb⟩ := hpre (k1, v1) (by simp)
    have := ih (fun kv hkv => hpre kv (by simp [hkv]))
    simp [scanFilter, hb, this]

theorem scanDelete_first_error (pred : JsonValue → Except String Bool)
    (pre : RecordStore) (k : Key) (v : JsonValue) (post : RecordStore) (e : String)
    (hpre : ∀ kv ∈ pre, ∃ b, pred kv.2 = .ok b) (hv : pred v = .error e) :
    scanDelete pred (pre ++ (k, v) :: post) = .error e := by
  induction pre with
  | nil => simp [scanDelete, hv]
  | cons kv rest ih =>
    obtain ⟨k1, v1⟩ := kv
    obtain ⟨b, hb⟩ := hpre (k1, v1) (by simp)
    have := ih (fun kv hkv => hpre kv (by simp [hkv]))
    simp [scanDelete, hb, this]

theorem scanNotify_sublist (log : List ChangeLogEntry) (seen : List Nat) :
    (scanNotify log seen).2.Sublist log := by
  induction log generalizing seen with
  | nil => simp [scanNotify]
  | cons e rest ih =>
    by_cases h : e.id ∈ seen
    · simp only [scanNotify, if_pos h]
      exact (ih seen).cons e
    · simp only [scanNotify, if_neg h]
      exact (ih (e.id :: seen)).cons₂ e

theorem scanNotify_fst (log : List ChangeLogEntry) (seen : List Nat) :
    (scanNotify log seen).1 =
      ((scanNotify log seen).2.map (fun e => e.id)).reverse ++ seen := by
  induction log generalizing seen with
  | nil => simp [scanNotify]
  | cons e rest ih =>
    by_cases h : e.id ∈ seen
    · simp only [scanNotify, if_pos h]
      exact ih seen
    · simp only [scanNotify, if_neg h]
      rw [ih (e.id :: seen)]
      simp

theorem scanNotify_not_seen (log : List ChangeLogEntry) (seen : List Nat) :
    ∀ e ∈ (scanNotify log seen).2, e.id ∉ seen := by
  induction log generalizing seen with
  | nil => simp [scanNotify]
  | cons e rest ih =>
    by_cases h : e.id ∈ seen
    · simp only [scanNotify, if_pos h]
      exact ih seen
    · simp only [scanNotify, if_neg h]
      intro e1 he1
      rcases List.mem_cons.mp he1 with rfl | hmem
      · exact h
      · have := ih (e.id :: seen) e1 hmem
        exact fun hs => this (List.mem_cons_of_mem _ hs)

theorem scanNotify_ids_nodup (log : List ChangeLogEntry) (seen : List Nat) :
    ((scanNotify log seen).2.map (fun e => e.id)).Nodup := by
  induction log generalizing seen with
  | nil => simp [scanNotify]
  | cons e rest ih =>
    by_cases h : e.id ∈ seen
    · simp only [scanNotify, if_pos h]
      exact ih seen
    · simp only [scanNotify, if_neg h, List.map_cons, List.nodup_cons]
      refine ⟨?_, ih (e.id :: seen)⟩
      intro hmem
      rcases List.mem_map.mp hmem with ⟨e1, he1, hid⟩
      exact scanNotify_not_seen rest (e.id :: seen) e1 he1 (hid ▸ List.mem_cons_self _ _)

theorem scanNotify_mem_fst {log : List ChangeLogEntry} {seen : List Nat} {i : Nat} :
    i ∈ (scanNotify log seen).1 ↔
      (∃ e ∈ (scanNotify log seen).2, e.id = i) ∨ i ∈ seen := by
  rw [scanNotify_fst]
  simp [List.mem_append, List.mem_reverse, List.mem_map]

theorem scanNotify_all (log : List ChangeLogEntry) (seen : List Nat)
    (hnodup : (log.map (fun e => e.id)).Nodup)
    (hseen : ∀ e ∈ log, e.id ∉ seen) :
    (scanNotify log seen).2 = log := by
  induction log generalizing seen with
  | nil => simp [scanNotify]
  | cons e rest ih =>
    have h : e.id ∉ seen := hseen e (List.mem_cons_self _ _)
    have hsplit : (∀ x ∈ rest, ¬x.id = e.id) ∧
        (rest.map (fun e => e.id)).Nodup := by simpa using hnodup
    simp only [scanNotify, if_neg h]
    rw [ih (e.id :: seen) hsplit.2]
    intro e1 he1 hmem
    rcases List.mem_cons.mp hmem with hid | hs
    · exact hsplit.1 e1 he1 hid
    · exact hseen e1 (List.mem_cons_of_mem _ he1) hs

theorem countId_eq_zero {l : List ChangeLogEntry} {i : Nat}
    (h : ∀ e ∈ l, e.id ≠ i) : countId i l = 0 := by
  induction l with
  | nil => rfl
  | cons e rest ih =>
    have := h e (List.mem_cons_self _ _)
    simp [countId, this, ih (fun e1 he1 => h e1 (List.mem_cons_of_mem _ he1))]

theorem countId_le_one_of_nodup {l : List ChangeLogEntry} {i : Nat}
    (h : (l.map (fun e => e.id)).Nodup) : countId i l ≤ 1 := by
  induction l with
  | nil => simp [countId]
  | cons e rest ih =>
    have hsplit : (∀ x ∈ rest, ¬x.id = e.id) ∧
        (rest.map (fun e => e.id)).Nodup := by simpa using h
    by_cases hid : e.id = i
    · have hzero : countId i rest = 0 := by
        refine countId_eq_zero fun e1 he1 hcontra => ?_
        exact hsplit.1 e1 he1 (by rw [hcontra, hid])
      simp [countId, hid, hzero]
    · simpa [countId, hid] using ih hsplit.2

theorem countId_pos_mem {l : List ChangeLogEntry} {i : Nat}
    (h : countId i l ≠ 0) : ∃ e ∈ l, e.id = i := by
  induction l with
  | nil => simp [countId] at h
  | cons e rest ih =>
    by_cases hid : e.id = i
    · exact ⟨e, List.mem_cons_self _ _, hid⟩
    · simp [countId, hid] at h
      rcases ih h with ⟨e1, he1, hid1⟩
      exact ⟨e1, List.mem_cons_of_mem _ he1, hid1⟩

theorem pollPass_count_seen (wl : Bool) (o : PollOutcome) (db : Database)
    {seen : List Nat} {i : Nat} (h : i ∈ seen) :
    countId i (pollPass wl o db seen).delivered = 0 := by
  have key : ∀ l, countId i (scanNotify l seen).2 = 0 := fun l =>
    countId_eq_zero (fun e he hid => scanNotify_not_seen l seen e he (hid ▸ h))
  cases o with
  | openFail => simp [pollPass, countId]
  | txFail =>
    simp only [pollPass]
    split
    · exact key _
    · simp [countId]
  | ok =>
    simp only [pollPass]
    split
    · exact key _
    · simp [countId]

theorem pollPass_seen_mono (wl : Bool) (o : PollOutcome) (db : Database)
    {seen : List Nat} {i : Nat} (h : i ∈ seen) :
    i ∈ (pollPass wl o db seen).seen := by
  cases o with
  | openFail => exact h
  | txFail =>
    simp only [pollPass]
    split
    · exact scanNotify_mem_fst.mpr (Or.inr h)
    · exact h
  | ok =>
    simp only [pollPass]
    split
    · exact scanNotify_mem_fst.mpr (Or.inr h)
    · exact h

theorem pollPass_count_le_one (wl : Bool) (o : PollOutcome) (db : Database)
    (seen : List Nat) (i : Nat) :
    countId i (pollPass wl o db seen).delivered ≤ 1 := by
  cases o with
  | openFail => simp [pollPass, countId]
  | txFail =>
    simp only [pollPass]
    split
    · exact countId_le_one_of_nodup (scanNotify_ids_nodup _ _)
    · simp [countId]
  | ok =>
    simp only [pollPass]
    split
    · exact countId_le_one_of_nodup (scanNotify_ids_nodup _ _)
    · simp [countId]

theorem pollPass_delivered_mem_seen (wl : Bool) (o : PollOutcome) (db : Database)
    {seen : List Nat} {i : Nat}
    (h : ∃ e ∈ (pollPass wl o db seen).delivered, e.id = i) :
    i ∈ (pollPass wl o db seen).seen := by
  cases o with
  | openFail => simp [pollPass] at h
  | txFail =>
    simp only [pollPass] at h ⊢
    rcases hc : (openPlain db).hasChangeLog with _ | _ <;> simp [hc] at h ⊢
    · exact scanNotify_mem_fst.mpr (Or.inl (by simpa using h))
  | ok =>
    simp only [pollPass] at h ⊢
    rcases hc : (openPlain db).hasChangeLog with _ | _ <;> simp [hc] at h ⊢
    · exact scanNotify_mem_fst.mpr (Or.inl (by simpa using h))

theorem pollRun_count_zero (wl : Bool) (passes : List (PollOutcome × Database))
    {seen : List Nat} {i : Nat} (h : i ∈ seen) :
    deliveredCount i (pollRun wl passes seen) = 0 := by
  induction passes generalizing seen with
  | nil => rfl
  | cons p rest ih =>
    obtain ⟨o, d⟩ := p
    simp only [pollRun]
    split
    · simp [deliveredCount, pollPass_count_seen wl o d h,
        ih (pollPass_seen_mono wl o d h)]
    · simp [deliveredCount, pollPass_count_seen wl o d h]

theorem pollRun_count_le_one (wl : Bool) (passes : List (PollOutcome × Database))
    (seen : List Nat) (i : Nat) :
    deliveredCount i (pollRun wl passes seen) ≤ 1 := by
  induction passes generalizing seen with
  | nil => simp [pollRun, deliveredCount]
  | cons p rest ih =>
    obtain ⟨o, d⟩ := p
    simp only [pollRun]
    by_cases hd : countId i (pollPass wl o d seen).delivered = 0
    · split
      · simpa [deliveredCount, hd] using ih _
      · simp [deliveredCount, hd]
    · have hmem := countId_pos_mem hd
      have hseen := pollPass_delivered_mem_seen wl o d hmem
      have hle := pollPass_count_le_one wl o d seen i
      split
      · simpa [deliveredCount, pollRun_count_zero wl rest hseen] using hle
      · simpa [deliveredCount] using hle

theorem ids_nodup_of_sorted {log : List ChangeLogEntry}
    (h : log.Pairwise (fun a b => a.id < b.id)) :
    (log.map (fun e => e.id)).Nodup := by
  have hlt : (log.map (fun e => e.id)).Pairwise (· < ·) := List.pairwise_map.mpr h
  exact hlt.imp Nat.ne_of_lt

theorem pollPass_delivered_sorted (wl : Bool) (o : PollOutcome) (db : Database)
    (seen : List Nat) (h : db.changeLog.Pairwise (fun a b => a.id < b.id)) :
    (pollPass wl o db seen).delivered.Pairwise (fun a b => a.id < b.id) := by
  have hlog : (openPlain db).changeLog.Pairwise (fun a b => a.id < b.id) := by
    rw [openPlain_changeLog]
    exact h
  cases o with
  | openFail => simp [pollPass]
  | txFail =>
    simp only [pollPass]
    split
    · exact List.Pairwise.sublist (scanNotify_sublist _ _) hlog
    · simp
  | ok =>
    simp only [pollPass]
    split
    · exact List.Pairwise.sublist (scanNotify_sublist _ _) hlog
    · simp

theorem pollPass_first_poll (wl : Bool) (db : Database)
    (hcl : db.hasChangeLog = true)
    (h : db.changeLog.Pairwise (fun a b => a.id < b.id)) :
    (pollPass wl .ok db []).delivered = db.changeLog ∧
      (pollPass wl .ok db []).reschedule = true := by
  have hcl1 : (openPlain db).hasChangeLog = true := by
    rw [openPlain_hasChangeLog]
    exact hcl
  have hall : (scanNotify (openPlain db).changeLog []).2 = (openPlain db).changeLog := by
    refine scanNotify_all _ _ ?_ (by simp)
    rw [openPlain_changeLog]
    exact ids_nodup_of_sorted h
  constructor
  · have hstep : (pollPass wl .ok db []).delivered =
        (scanNotify (openPlain db).changeLog []).2 := by
      simp [pollPass, hcl1]
    rw [hstep, hall, openPlain_changeLog]
  · simp [pollPass, hcl1]

/-- C1: Dual-write atomicity of write. When writeJson resolves successfully,
the changeLog afterwards is the previous changeLog extended by exactly one
new entry carrying the written store name, key and value, whose
auto-assigned id is strictly greater than every previously assigned id.
When the enclosing transaction aborts or errors, the call fails as a whole
and the database is exactly the post-open pre-write state, so neither the
record write nor the log entry is visible. -/
theorem c1_write_dual_atomicity :
    ∀ (db0 : Database) (s : String) (k : Key) (v : JsonValue),
      WF db0 →
      ((writeJson .commit db0 s k v).result = .ok () →
        (writeJson .commit db0 s k v).db.changeLog =
          (openDb db0 s).changeLog ++ [⟨(openDb db0 s).nextId, s, k, v⟩] ∧
        ∀ e ∈ (openDb db0 s).changeLog, e.id < (openDb db0 s).nextId)
      ∧ ((writeJson .abort db0 s k v).db = openDb db0 s ∧
        ∃ er, (writeJson .abort db0 s k v).result = .error er) := by
  intro db0 s k v hwf
  constructor
  · intro h
    by_cases hv : db0.version ≤ 1
    · simp only [writeJson, if_pos hv] at h ⊢
      by_cases hcl : (openDb db0 s).hasChangeLog
      · rcases hfs : findStore (openDb db0 s).stores s with _ | recs
        · simp [hfs, hcl] at h
        · refine ⟨?_, (wf_openDb s hwf).1⟩
          simp [hfs, hcl, addLogEntry]
      · simp [hcl] at h
    · simp [writeJson, hv] at h
  · by_cases hv : db0.version ≤ 1
    · simp only [writeJson, if_pos hv]
      by_cases hcl : (openDb db0 s).hasChangeLog
      · rcases hfs : findStore (openDb db0 s).stores s with _ | recs
        · exact ⟨by simp [hfs, hcl], ⟨.storeNotFound s, by simp [hfs, hcl]⟩⟩
        · exact ⟨by simp [hfs, hcl], ⟨.txAborted, by simp [hfs, hcl]⟩⟩
      · exact ⟨by simp [hcl], ⟨.storeNotFound "changeLog", by simp [hcl]⟩⟩
    · have hopen : openDb db0 s = db0 := openDb_eq_self db0 s (by omega)
      exact ⟨by simp [writeJson, hv, hopen], ⟨.openFailed, by simp [writeJson, hv]⟩⟩

/-- C1 witness: on a fresh database the commit path of writeJson appends
exactly the expected log entry. -/
theorem c1_write_dual_atomicity_witness :
    WF emptyDb ∧
    (writeJson .commit emptyDb "kv" "k1" JsonValue.null).db.changeLog =
      (openDb emptyDb "kv").changeLog ++
        [⟨(openDb emptyDb "kv").nextId, "kv", "k1", JsonValue.null⟩] := by
  have hwf : WF emptyDb := ⟨by simp [emptyDb], by simp [emptyDb]⟩
  exact ⟨hwf, ((c1_write_dual_atomicity emptyDb "kv" "k1" JsonValue.null hwf).1 rfl).1⟩

/-- C2: Notifier exactly-once ordered delivery, for both onNewRecord
(withLog false) and onNewRecordWithLog (withLog true). Across the whole
lifetime of an observer started with an empty seen set, every changeLog id
is delivered at most once; within any single poll pass the delivered
entries are in ascending id order whenever the log is; and the first
successful poll over a log of N entries committed before the observer
started delivers exactly those N entries, in log order. -/
theorem c2_notifier_exactly_once_ordered :
    ∀ withLog : Bool,
      (∀ (passes : List (PollOutcome × Database)) (i : Nat),
          deliveredCount i (pollRun withLog passes []) ≤ 1)
      ∧ (∀ (o : PollOutcome) (db : Database) (seen : List Nat),
          db.changeLog.Pairwise (fun a b => a.id < b.id) →
          (pollPass withLog o db seen).delivered.Pairwise (fun a b => a.id < b.id))
      ∧ (∀ db : Database,
          db.hasChangeLog = true →
          db.changeLog.Pairwise (fun a b => a.id < b.id) →
          (pollPass withLog .ok db []).delivered = db.changeLog) := by
  intro wl
  exact ⟨fun passes i => pollRun_count_le_one wl passes [] i,
    fun o db seen h => pollPass_delivered_sorted wl o db seen h,
    fun db hcl h => (pollPass_first_poll wl db hcl h).1⟩

/-- C2 witness: on a concrete two-entry log the first poll delivers the
whole log and a run delivers id 1 at most once. -/
theorem c2_notifier_exactly_once_ordered_witness :
    deliveredCount 1 (pollRun true [(PollOutcome.ok, notifyDb)] []) ≤ 1 ∧
    (pollPass true .ok notifyDb []).delivered = notifyDb.changeLog := by
  refine ⟨(c2_notifier_exactly_once_ordered true).1 [(PollOutcome.ok, notifyDb)] 1,
    (c2_notifier_exactly_once_ordered true).2.2 notifyDb rfl ?_⟩
  simp [notifyDb, sampleLog]

/-- C3: Round-trip. A successful writeJson followed by readJson at the same
database, collection and key yields exactly the written value. -/
theorem readJson_found {db : Database} {s : String} {recs : RecordStore} (k : Key)
    (hv : db.version = 1) (hfs : findStore db.stores s = some recs) :
    (readJson .commit db s k).result = .ok (getKV k recs) := by
  have hopen : openDb db s = db := openDb_eq_self db s (by omega)
  simp [readJson, hv, hopen, hfs]

theorem c3_write_read_roundtrip :
    ∀ (db0 : Database) (s : String) (k : Key) (v : JsonValue),
      (writeJson .commit db0 s k v).result = .ok () →
      (readJson .commit (writeJson .commit db0 s k v).db s k).result =
        .ok (some v) := by
  intro db0 s k v h
  by_cases hv : db0.version ≤ 1
  · by_cases hcl : (openDb db0 s).hasChangeLog
    · rcases hfs : findStore (openDb db0 s).stores s with _ | recs
      · simp [writeJson, hv, hcl, hfs] at h
      · have hdb : (writeJson .commit db0 s k v).db =
            addLogEntry
              { openDb db0 s with
                stores := updateStore s (putKV k v recs) (openDb db0 s).stores }
              s k v := by
          simp [writeJson, hv, hcl, hfs]
        have hver : ((writeJson .commit db0 s k v).db).version = 1 := by
          rw [hdb]
          simp [addLogEntry, openDb_version db0 s hv]
        have hst : findStore ((writeJson .commit db0 s k v).db).stores s =
            some (putKV k v recs) := by
          rw [hdb]
          simp only [addLogEntry]
          exact findStore_updateStore_self hfs _
        rw [readJson_found k hver hst, getKV_putKV]
    · simp [writeJson, hv, hcl] at h
  · simp [writeJson, hv] at h

/-- C3 witness: the concrete scenario of the test suite, writing the Ada
record and reading it back. -/
theorem c3_write_read_roundtrip_witness :
    (readJson .commit (writeJson .commit emptyDb "kv" "user:1" vAda).db
        "kv" "user:1").result = .ok (some vAda) :=
  c3_write_read_roundtrip emptyDb "kv" "user:1" vAda rfl

/-- C4: readMany filter correctness and order preservation. For every
collection contents and pure caller predicate, readMultipleRecords resolves
with exactly the values the predicate accepts, in collection iteration
order, and changes nothing. Collections named changeLog are outside the
embedding (the source would scan the log store itself there). -/
theorem c4_readMany_filter_order :
    ∀ (db0 : Database) (s : String) (p : JsonValue → Bool) (recs : RecordStore),
      s ≠ "changeLog" →
      findStore (openPlain db0).stores s = some recs →
      readMultipleRecords db0 s (fun v => .ok (p v)) =
        ⟨openPlain db0, some (.ok ((recs.map Prod.snd).filter p)), false⟩ := by
  intro db0 s p recs _hs hfs
  simp [readMultipleRecords, hfs, scanFilter_pure]

/-- C4 witness: the test scenario, ids 1 2 3 with the predicate id above 1,
yields the values 2 and 3 in order. -/
theorem c4_readMany_filter_order_witness :
    readMultipleRecords scanDb "teststore" (fun v => .ok (predGt1 v)) =
      ⟨openPlain scanDb,
        some (.ok ((([(("key1" : Key), JsonValue.num 1), ("key2", JsonValue.num 2),
          ("key3", JsonValue.num 3)] : RecordStore).map Prod.snd).filter predGt1)),
        false⟩ ∧
    (([(("key1" : Key), JsonValue.num 1), ("key2", JsonValue.num 2),
        ("key3", JsonValue.num 3)] : RecordStore).map Prod.snd).filter predGt1 =
      [JsonValue.num 2, JsonValue.num 3] := by
  refine ⟨c4_readMany_filter_order scanDb "teststore" predGt1 _ (by decide) rfl, ?_⟩
  simp [predGt1]

/-- C5: deleteMany removes exactly the matching subset. After
deleteMultipleRecords resolves, the scanned store holds exactly the records
whose value the predicate rejected, in their original order; other stores
are untouched; re-scanning with an always-true predicate returns exactly
the surviving values. -/
theorem c5_deleteMany_exact :
    ∀ (db0 : Database) (s : String) (p : JsonValue → Bool) (recs : RecordStore),
      s ≠ "changeLog" →
      findStore (openPlain db0).stores s = some recs →
      (deleteMultipleRecords db0 s (fun v => .ok (p v))).outcome = some (.ok ()) ∧
      findStore (deleteMultipleRecords db0 s (fun v => .ok (p v))).db.stores s =
        some (recs.filter (fun kv => !(p kv.2))) ∧
      (∀ t, t ≠ s →
        findStore (deleteMultipleRecords db0 s (fun v => .ok (p v))).db.stores t =
          findStore (openPlain db0).stores t) ∧
      readMultipleRecords (deleteMultipleRecords db0 s (fun v => .ok (p v))).db s
          (fun _ => .ok true) =
        ⟨(deleteMultipleRecords db0 s (fun v => .ok (p v))).db,
          some (.ok ((recs.map Prod.snd).filter (fun v => !(p v)))), false⟩ := by
  intro db0 s p recs _hs hfs
  have hdel : deleteMultipleRecords db0 s (fun v => .ok (p v)) =
      ⟨{ openPlain db0 with
          stores := updateStore s (recs.filter (fun kv => !(p kv.2)))
            (openPlain db0).stores },
        some (.ok ()), false⟩ := by
    simp [deleteMultipleRecords, hfs, scanDelete_pure]
  rw [hdel]
  have hop : openPlain
      { openPlain db0 with
        stores := updateStore s (recs.filter (fun kv => !(p kv.2)))
          (openPlain db0).stores } =
      { openPlain db0 with
        stores := updateStore s (recs.filter (fun kv => !(p kv.2)))
          (openPlain db0).stores } :=
    openPlain_eq_self _ (openPlain_version db0)
  have hfs1 : findStore (updateStore s (recs.filter (fun kv => !(p kv.2)))
      (openPlain db0).stores) s = some (recs.filter (fun kv => !(p kv.2))) :=
    findStore_updateStore_self hfs _
  refine ⟨rfl, hfs1, fun t ht => findStore_updateStore_other _ ht, ?_⟩
  simp only [readMultipleRecords, hop, hfs1, scanFilter_pure, List.filter_true]
  simp [map_snd_filter_snd (fun v => !(p v)) recs]

/-- C5 witness: the test scenario, ids 1 2 3 with the predicate id at most
2; only the record with id 3 survives. -/
theorem c5_deleteMany_exact_witness :
    (deleteMultipleRecords scanDb "teststore"
        (fun v => .ok (predLe2 v))).outcome = some (.ok ()) ∧
    findStore (deleteMultipleRecords scanDb "teststore"
        (fun v => .ok (predLe2 v))).db.stores "teststore" =
      some ([(("key1" : Key), JsonValue.num 1), ("key2", JsonValue.num 2),
        ("key3", JsonValue.num 3)].filter (fun kv => !(predLe2 kv.2))) ∧
    ([(("key1" : Key), JsonValue.num 1), ("key2", JsonValue.num 2),
        ("key3", JsonValue.num 3)] : RecordStore).filter (fun kv => !(predLe2 kv.2)) =
      [("key3", JsonValue.num 3)] := by
  have h := c5_deleteMany_exact scanDb "teststore" predLe2
      [("key1", .num 1), ("key2", .num 2), ("key3", .num 3)] (by decide) rfl
  refine ⟨h.1, h.2.1, ?_⟩
  simp [predLe2]

/-- C6: Delete asymmetry and frame. On its success path deleteKey removes
exactly the record at the key from the named collection and touches no
other collection, and for every transaction outcome the changeLog store
(contents, counter and existence) is unchanged by the delete. Collections
named changeLog are outside the embedding. -/
theorem c6_delete_frame :
    ∀ (db0 : Database) (s : String) (k : Key),
      s ≠ "changeLog" →
      ((db0.version ≤ 1 →
        ∀ recs, findStore (openDb db0 s).stores s = some recs →
          (deleteKey .commit db0 s k).result = .ok () ∧
          findStore (deleteKey .commit db0 s k).db.stores s =
            some (eraseKey k recs) ∧
          getKV k (eraseKey k recs) = none ∧
          (∀ t, t ≠ s →
            findStore (deleteKey .commit db0 s k).db.stores t =
              findStore (openDb db0 s).stores t))
      ∧ ∀ txr, (deleteKey txr db0 s k).db.changeLog = (openDb db0 s).changeLog ∧
          (deleteKey txr db0 s k).db.nextId = (openDb db0 s).nextId ∧
          (deleteKey txr db0 s k).db.hasChangeLog = (openDb db0 s).hasChangeLog) := by
  intro db0 s k _hs
  constructor
  · intro hv recs hfs
    have hdel : deleteKey .commit db0 s k =
        ⟨{ openDb db0 s with
            stores := updateStore s (eraseKey k recs) (openDb db0 s).stores },
          .ok (), true⟩ := by
      simp [deleteKey, hv, hfs]
    rw [hdel]
    exact ⟨rfl, findStore_updateStore_self hfs _, getKV_eraseKey k recs,
      fun t ht => findStore_updateStore_other _ ht⟩
  · intro txr
    by_cases hv : db0.version ≤ 1
    · rcases hfs : findStore (openDb db0 s).stores s with _ | recs
      · cases txr <;> simp [deleteKey, hv, hfs]
      · cases txr <;> simp [deleteKey, hv, hfs]
    · have hopen : openDb db0 s = db0 := openDb_eq_self db0 s (by omega)
      simp [deleteKey, hv, hopen]

/-- C6 witness: deleting one concrete key succeeds and leaves the changeLog
untouched. -/
theorem c6_delete_frame_witness :
    (deleteKey .commit scanDb "teststore" "key2").result = .ok () ∧
    (deleteKey TxResult.commit scanDb "teststore" "key2").db.changeLog =
      (openDb scanDb "teststore").changeLog := by
  have h := c6_delete_frame scanDb "teststore" "key2" (by decide)
  exact ⟨(h.1 (by decide)
      [("key1", .num 1), ("key2", .num 2), ("key3", .num 3)] rfl).1,
    (h.2 TxResult.commit).1⟩

/-- C7 counterexample: with a predicate that throws on the second record,
neither scan rejects with that error; the transaction aborts and, with only
transaction.onerror registered and no onabort handler, the promise never
settles, refuting the claim that it fails with the predicate's error. -/
theorem c7_predicate_error_counterexample :
    (readMultipleRecords scanDb "teststore" predBoom).outcome = none ∧
    (deleteMultipleRecords scanDb "teststore" predBoom).outcome = none ∧
    (deleteMultipleRecords scanDb "teststore" predBoom).db = openPlain scanDb :=
  ⟨rfl, rfl, rfl⟩

/-- C7 amended: when the caller predicate throws on a record, the exception
escapes the cursor success handler and aborts the transaction; because the
scanners register only transaction.onerror and no onabort handler, neither
resolve nor reject ever runs, so the returned promise never settles instead
of rejecting with the predicate's error. The abort rolls back the
deletions of the destructive scan, leaving the database unchanged. -/
theorem c7_predicate_error_hangs_scan :
    ∀ (db0 : Database) (s : String) (pred : JsonValue → Except String Bool)
      (pre : RecordStore) (k : Key) (v : JsonValue) (post : RecordStore)
      (e : String),
      s ≠ "changeLog" →
      findStore (openPlain db0).stores s = some (pre ++ (k, v) :: post) →
      (∀ kv ∈ pre, ∃ b, pred kv.2 = .ok b) →
      pred v = .error e →
      (readMultipleRecords db0 s pred).outcome = none ∧
      (deleteMultipleRecords db0 s pred).outcome = none ∧
      (deleteMultipleRecords db0 s pred).db = openPlain db0 := by
  intro db0 s pred pre k v post e _hs hfs hpre hv
  have h1 := scanFilter_first_error pred pre k v post e hpre hv
  have h2 := scanDelete_first_error pred pre k v post e hpre hv
  exact ⟨by simp [readMultipleRecords, hfs, h1],
    by simp [deleteMultipleRecords, hfs, h2],
    by simp [deleteMultipleRecords, hfs, h2]⟩

/-- C7 witness for the amended claim: a predicate that throws on the second
record leaves both scans unsettled and the store intact. -/
theorem c7_predicate_error_hangs_scan_witness :
    (readMultipleRecords scanDb "teststore" predBoom).outcome = none ∧
    (deleteMultipleRecords scanDb "teststore" predBoom).db = openPlain scanDb := by
  have h := c7_predicate_error_hangs_scan scanDb "teststore" predBoom
      [("key1", .num 1)] "key2" (.num 2) [("key3", .num 3)] "boom"
      (by decide) rfl
      (by
        intro kv hkv
        simp only [List.mem_singleton] at hkv
        subst hkv
        exact ⟨true, rfl⟩)
      rfl
  exact ⟨h.1, h.2.2⟩

/-- C8 counterexample: on an open failure the onNewRecord pass logs nothing
(it installs no error handler) and neither variant schedules the next poll,
refuting the claim that the failure is logged and the loop reschedules. -/
theorem c8_poll_open_failure_counterexample :
    (pollPass false .openFail bareDb []).logged = false ∧
    (pollPass false .openFail bareDb []).reschedule = false ∧
    (pollPass true .openFail bareDb []).reschedule = false :=
  ⟨rfl, rfl, rfl⟩

/-- C8 amended: a poll pass schedules the next poll exactly when its open
succeeds, the changeLog store exists and the transaction completes; an open
failure is logged by onNewRecordWithLog only, skips the pass, and, like any
non-rescheduling pass, permanently halts the polling loop. -/
theorem c8_poll_failure_halts_loop :
    ∀ (withLog : Bool) (o : PollOutcome) (db : Database) (seen : List Nat),
      ((pollPass withLog o db seen).reschedule = true ↔
        (o = PollOutcome.ok ∧ db.hasChangeLog = true)) ∧
      (pollPass withLog .openFail db seen).logged = withLog ∧
      (pollPass withLog .openFail db seen).delivered = [] ∧
      (pollPass withLog .openFail db seen).seen = seen ∧
      (∀ rest : List (PollOutcome × Database),
        (pollPass withLog o db seen).reschedule = false →
        pollRun withLog ((o, db) :: rest) seen =
          [(pollPass withLog o db seen).delivered]) := by
  intro wl o db seen
  refine ⟨?_, rfl, rfl, rfl, ?_⟩
  · cases o with
    | openFail => simp [pollPass]
    | txFail =>
      simp only [pollPass]
      split
      · simp
      · simp
    | ok =>
      simp only [pollPass]
      split
      · rename_i h
        rw [openPlain_hasChangeLog] at h
        simp [h]
      · rename_i h
        rw [openPlain_hasChangeLog, Bool.not_eq_true] at h
        simp [h]
  · intro rest hre
    simp [pollRun, hre]

/-- C8 witness for the amended claim: a fully successful pass over an
existing changeLog reschedules, and a run whose first pass hits an open
failure stops after that single empty pass. -/
theorem c8_poll_failure_halts_loop_witness :
    (pollPass true .ok notifyDb []).reschedule = true ∧
    pollRun false [(PollOutcome.openFail, notifyDb)] [] = [[]] := by
  refine ⟨(c8_poll_failure_halts_loop true .ok notifyDb []).1.mpr ⟨rfl, rfl⟩, ?_⟩
  have h := (c8_poll_failure_halts_loop false .openFail notifyDb []).2.2.2.2 [] rfl
  simpa using h

/-- C9 counterexample: a successful readMultipleRecords scan completes
without ever closing the handle it opened, and a failed writeJson
transaction skips the close call, refuting the claim that every operation
closes its handle on both the success and the failure path. -/
theorem c9_handle_leak_counterexample :
    (readMultipleRecords scanDb "teststore" (fun _ => .ok true)).outcome =
      some (.ok [JsonValue.num 1, JsonValue.num 2, JsonValue.num 3]) ∧
    (readMultipleRecords scanDb "teststore" (fun _ => .ok true)).closed = false ∧
    (writeJson .abort scanDb "teststore" "key1" JsonValue.null).closed = false :=
  ⟨rfl, rfl, rfl⟩

/-- C9 amended: writeJson, readJson and deleteKey close their handle
exactly when they succeed (a rejected call skips the close), while the two
bulk scanners and every notifier poll never close the handle they open. -/
theorem c9_handle_close_paths :
    ∀ (txr : TxResult) (db0 : Database) (s : String) (k : Key) (v : JsonValue)
      (p : JsonValue → Except String Bool) (wl : Bool) (o : PollOutcome)
      (db1 : Database) (seen : List Nat),
      (writeJson txr db0 s k v).closed =
        succeeded (writeJson txr db0 s k v).result ∧
      (readJson txr db0 s k).closed = succeeded (readJson txr db0 s k).result ∧
      (deleteKey txr db0 s k).closed = succeeded (deleteKey txr db0 s k).result ∧
      (readMultipleRecords db0 s p).closed = false ∧
      (deleteMultipleRecords db0 s p).closed = false ∧
      (pollPass wl o db1 seen).closed = false := by
  intro txr db0 s k v p wl o db1 seen
  refine ⟨?_, ?_, ?_, ?_, ?_, ?_⟩
  · by_cases hv : db0.version ≤ 1
    · by_cases hcl : (openDb db0 s).hasChangeLog
      · rcases hfs : findStore (openDb db0 s).stores s with _ | recs
        · cases txr <;> simp [writeJson, hv, hcl, hfs, succeeded]
        · cases txr <;> simp [writeJson, hv, hcl, hfs, succeeded]
      · simp [writeJson, hv, hcl, succeeded]
    · simp [writeJson, hv, succeeded]
  · by_cases hv : db0.version ≤ 1
    · rcases hfs : findStore (openDb db0 s).stores s with _ | recs
      · cases txr <;> simp [readJson, hv, hfs, succeeded]
      · cases txr <;> simp [readJson, hv, hfs, succeeded]
    · simp [readJson, hv, succeeded]
  · by_cases hv : db0.version ≤ 1
    · rcases hfs : findStore (openDb db0 s).stores s with _ | recs
      · cases txr <;> simp [deleteKey, hv, hfs, succeeded]
      · cases txr <;> simp [deleteKey, hv, hfs, succeeded]
    · simp [deleteKey, hv, succeeded]
  · rcases hfs : findStore (openPlain db0).stores s with _ | recs
    · simp [readMultipleRecords, hfs]
    · rcases hsf : scanFilter p recs with e | vs <;>
        simp [readMultipleRecords, hfs, hsf]
  · rcases hfs : findStore (openPlain db0).stores s with _ | recs
    · simp [deleteMultipleRecords, hfs]
    · rcases hsf : scanDelete p recs with e | rs <;>
        simp [deleteMultipleRecords, hfs, hsf]
  · cases o with
    | openFail => rfl
    | txFail =>
      simp only [pollPass]
      split <;> rfl
    | ok =>
      simp only [pollPass]
      split <;> rfl

/-- C10 counterexample: on a created database with no stores, a scan of a
missing collection neither resolves nor rejects (the promise never
settles), refuting the claim that these operations fail; no collection is
created either. -/
theorem c10_missing_store_counterexample :
    (readMultipleRecords bareDb "users" (fun _ => .ok true)).outcome = none ∧
    (readMultipleRecords bareDb "users" (fun _ => .ok true)).db.stores = [] ∧
    (deleteMultipleRecords bareDb "users" (fun _ => .ok true)).outcome = none :=
  ⟨rfl, rfl, rfl⟩

theorem runUpgrade_stores_cases (db : Database) (s : String) :
    (runUpgrade db s).stores =
      if containsName db s then db.stores else db.stores ++ [(s, [])] := by
  simp only [runUpgrade]
  split
  · split <;> rfl
  · split <;> rfl

theorem runUpgrade_hasChangeLog_true (db : Database) (s : String)
    (hclnone : findStore db.stores "changeLog" = none) (hs : s ≠ "changeLog") :
    (runUpgrade db s).hasChangeLog = true := by
  have hfs1 : findStore (db.stores ++ [(s, [])]) "changeLog" = none := by
    rw [findStore_append]
    simp [hclnone, findStore, hs]
  simp only [runUpgrade]
  split
  · split
    · rename_i h2
      simpa [containsName, hclnone] using h2
    · rfl
  · split
    · rename_i h2
      simpa [containsName, hfs1] using h2
    · rfl

/-- C10 amended: the scanners open without a version or upgrade hook, so on
a database lacking the named collection their promise never settles and no
collection is created; a notifier pass on a database without the changeLog
store delivers nothing, creates nothing and does not reschedule; opening
without a version never creates collections; and the versioned open used by
writeJson, readJson and deleteKey creates the named collection and the
changeLog store when the database is newly created. -/
theorem c10_provisioning_amended :
    ∀ (db0 : Database) (s : String) (p : JsonValue → Except String Bool)
      (wl : Bool) (o : PollOutcome) (seen : List Nat),
      s ≠ "changeLog" →
      ((findStore (openPlain db0).stores s = none →
        readMultipleRecords db0 s p = ⟨openPlain db0, none, false⟩ ∧
        deleteMultipleRecords db0 s p = ⟨openPlain db0, none, false⟩)
      ∧ (db0.hasChangeLog = false →
          (pollPass wl o db0 seen).delivered = [] ∧
          (pollPass wl o db0 seen).reschedule = false ∧
          (pollPass wl o db0 seen).db.stores = db0.stores ∧
          (pollPass wl o db0 seen).db.hasChangeLog = false)
      ∧ (openPlain db0).stores = db0.stores
      ∧ (db0.version = 0 → findStore db0.stores "changeLog" = none →
          (findStore (openDb db0 s).stores s).isSome = true ∧
          (openDb db0 s).hasChangeLog = true)) := by
  intro db0 s p wl o seen hs
  refine ⟨?_, ?_, openPlain_stores db0, ?_⟩
  · intro hfs
    exact ⟨by simp [readMultipleRecords, hfs], by simp [deleteMultipleRecords, hfs]⟩
  · intro hcl
    have hcl1 : (openPlain db0).hasChangeLog = false := by
      rw [openPlain_hasChangeLog]
      exact hcl
    cases o <;>
      simp [pollPass, hcl1, openPlain_stores, openPlain_hasChangeLog, hcl]
  · intro hv0 hclnone
    have hlt : db0.version < 1 := by omega
    have hbe : (s == "changeLog") = false := by
      simpa using hs
    constructor
    · simp only [openDb]
      rw [if_pos hlt]
      show (findStore (runUpgrade db0 s).stores s).isSome = true
      rw [runUpgrade_stores_cases]
      cases hc1 : containsName db0 s with
      | true =>
        simpa [containsName, hbe] using hc1
      | false =>
        have hnone : findStore db0.stores s = none := by
          rcases hn : findStore db0.stores s with _ | r
          · rfl
          · simp [containsName, hn] at hc1
        simp [findStore_append, hnone, findStore]
    · simp only [openDb]
      rw [if_pos hlt]
      show (runUpgrade db0 s).hasChangeLog = true
      exact runUpgrade_hasChangeLog_true db0 s hclnone hs

/-- C10 witness for the amended claim: scanning a missing collection on a
store-less database hangs, a notifier pass there does nothing, and the
versioned open on a fresh database creates both the named collection and
the changeLog store. -/
theorem c10_provisioning_amended_witness :
    readMultipleRecords bareDb "users" (fun _ => .ok true) =
      ⟨openPlain bareDb, none, false⟩ ∧
    (pollPass true PollOutcome.ok bareDb []).reschedule = false ∧
    (findStore (openDb emptyDb "kv").stores "kv").isSome = true ∧
    (openDb emptyDb "kv").hasChangeLog = true := by
  have h1 := c10_provisioning_amended bareDb "users" (fun _ => .ok true)
      true PollOutcome.ok [] (by decide)
  have h2 := c10_provisioning_amended emptyDb "kv" (fun _ => .ok true)
      true PollOutcome.ok [] (by decide)
  exact ⟨(h1.1 rfl).1, (h1.2.1 rfl).2.1, (h2.2.2.2 rfl rfl).1, (h2.2.2.2 rfl rfl).2⟩

end Idb
